import Mathlib

/-!
Shallow embedding of the MIPS simulator core (`proj2.py`): the register
file, byte-addressable memory, instruction decoder and the
fetch-decode-execute CPU loop, together with theorems checking the
specification's claims against this embedding.

Modelling conventions:
* Python integers are arbitrary precision, so register values are `Nat`
  (they are always stored masked to 32 bits) and quantities that can go
  negative (the program counter after a backward branch, immediates,
  subtraction results before masking) are `Int`.
* Python `x & 0xFFFFFFFF` on an arbitrary-precision (possibly negative)
  int equals the mathematical `x mod 2^32`; likewise `x & 0x001FFFFF`
  equals `x mod 2^21`.  We use `Int.emod` for those masks.
* Python `~x` is `-x - 1`.
* A raised `IndexError` is modelled by the `Except`/`Option` error
  component; a helper returning a pair `(state, some e)` records the
  state as mutated up to the raise point, which is what the caller of
  `run` observes after an aborted run.
-/

/-- Register file: 33 slots (32 general registers plus the pseudo `lo`
register at index 32), modelled as a total function from indices to the
stored (always 32-bit-masked) values.  Indices above 32 raise an
`IndexError` in the source and are never produced by `decode`. -/
structure RegisterFile where
  registers : Nat → Nat

/-- Read value from register at given index (`RegisterFile.read`). -/
def RegisterFile.read (r : RegisterFile) (index : Nat) : Nat :=
  r.registers index

/-- Write value to register at given index, except register 0 which is
read-only; the stored value is `value & 0xFFFFFFFF`, i.e. `value mod 2^32`
(`RegisterFile.write`). -/
def RegisterFile.write (r : RegisterFile) (index : Nat) (value : Int) : RegisterFile :=
  if index = 0 then r
  else ⟨fun j => if j = index then (value % 4294967296).toNat else r.registers j⟩

/-- Fresh register file: all 33 slots zero (`RegisterFile.__init__`). -/
def RegisterFile.init : RegisterFile :=
  ⟨fun _ => 0⟩

/-- Byte-addressable memory: a byte store of capacity `size` bytes
(default 2 MiB in the source), modelled as a total function from internal
indices to byte values. -/
structure Memory where
  data : Nat → Nat
  size : Nat

/-- Translate a MIPS address to an internal index: `address & 0x001FFFFF`
keeps only the lower 21 bits, i.e. the address mod 2^21
(`Memory._translate_address`). -/
def Memory.translate (address : Int) : Nat :=
  (address % 2097152).toNat

/-- Load a 32-bit word: translate, bounds-check `internal + 3 < size`
(the translated index is never negative), then compose four consecutive
bytes most-significant first (`Memory.load_word`). -/
def Memory.load_word (m : Memory) (address : Int) : Except Unit Nat :=
  let internal := Memory.translate address
  if internal + 3 ≥ m.size then
    Except.error ()
  else
    Except.ok ((((m.data internal <<< 8 ||| m.data (internal + 1)) <<< 8 |||
      m.data (internal + 2)) <<< 8) ||| m.data (internal + 3))

/-- Store a 32-bit word: translate, same bounds check, then write the four
bytes `(value >> (24 - 8*i)) & 0xFF` to consecutive slots, most-significant
first (`Memory.store_word`). -/
def Memory.store_word (m : Memory) (address : Int) (value : Nat) : Except Unit Memory :=
  let internal := Memory.translate address
  if internal + 3 ≥ m.size then
    Except.error ()
  else
    Except.ok ⟨fun j =>
      if j = internal then (value >>> 24) &&& 0xFF
      else if j = internal + 1 then (value >>> 16) &&& 0xFF
      else if j = internal + 2 then (value >>> 8) &&& 0xFF
      else if j = internal + 3 then value &&& 0xFF
      else m.data j, m.size⟩

/-- Decoded instruction: the three tagged shapes returned by `CPU.decode`.
The I-shape immediate is the sign-extended value, hence an `Int`. -/
inductive Instr where
  | R (rs rt rd sh fn : Nat)
  | I (op rs rt : Nat) (imm : Int)
  | J (op : Nat) (addr : Nat)
deriving DecidableEq

/-- CPU state: memory, register file and the program counter (a Python
int, hence `Int`: branches with negative immediates may drive it below
zero before translation folds it back). -/
structure CPU where
  memory : Memory
  registers : RegisterFile
  program_counter : Int

/-- Construct a CPU over a memory: program counter at the text-segment
base `0x00400000`, stack pointer (register 29) at `0x100000`, the `lo`
register (32) zeroed (`CPU.__init__`). -/
def CPU.init (memory : Memory) : CPU :=
  { memory := memory
    registers := (RegisterFile.init.write 29 0x100000).write 32 0
    program_counter := 0x00400000 }

/-- Decode a 32-bit instruction word into one of the three shapes
(`CPU.decode`): opcode 0 gives R, opcodes 2 and 3 give J, anything else
gives I with the 16-bit immediate sign-extended (subtract `0x10000` when
bit 15 is set). -/
def CPU.decode (instr : Nat) : Instr :=
  let opcode := (instr >>> 26) &&& 0x3F
  if opcode = 0 then
    Instr.R ((instr >>> 21) &&& 0x1F) ((instr >>> 16) &&& 0x1F)
      ((instr >>> 11) &&& 0x1F) ((instr >>> 6) &&& 0x1F) (instr &&& 0x3F)
  else if opcode = 2 ∨ opcode = 3 then
    Instr.J opcode (instr &&& 0x03FFFFFF)
  else
    let imm : Nat := instr &&& 0xFFFF
    Instr.I opcode ((instr >>> 21) &&& 0x1F) ((instr >>> 16) &&& 0x1F)
      (if imm &&& 0x8000 ≠ 0 then (imm : Int) - 0x10000 else (imm : Int))

/-- Execute a decoded instruction (`CPU.execute`).  Returns the state as
mutated up to a possible `IndexError` raise point together with the error,
if any: only `lw`/`sw` can raise, and they raise before any register or
memory mutation of their own.  Unmatched function codes and opcodes fall
through all branches and change nothing. -/
def CPU.execute (c : CPU) (decoded : Instr) : CPU × Option Unit :=
  match decoded with
  | Instr.R rs rt rd sh fn =>
    let v1 := c.registers.read rs
    let v2 := c.registers.read rt
    if fn = 0x20 then      -- add
      ({ c with registers := c.registers.write rd ((v1 : Int) + (v2 : Int)) }, none)
    else if fn = 0x22 then -- sub
      ({ c with registers := c.registers.write rd ((v1 : Int) - (v2 : Int)) }, none)
    else if fn = 0x00 then -- sll
      ({ c with registers := c.registers.write rd ((v2 <<< sh : Nat) : Int) }, none)
    else if fn = 0x2A then -- slt
      ({ c with registers := c.registers.write rd (if v1 < v2 then 1 else 0) }, none)
    else if fn = 0x26 then -- xor
      ({ c with registers := c.registers.write rd ((v1 ^^^ v2 : Nat) : Int) }, none)
    else if fn = 0x25 then -- or
      ({ c with registers := c.registers.write rd ((v1 ||| v2 : Nat) : Int) }, none)
    else if fn = 0x27 then -- nor: Python ~(v1 | v2) = -(v1 | v2) - 1
      ({ c with registers := c.registers.write rd (-((v1 ||| v2 : Nat) : Int) - 1) }, none)
    else if fn = 0x24 then -- and
      ({ c with registers := c.registers.write rd ((v1 &&& v2 : Nat) : Int) }, none)
    else if fn = 0x08 then -- jr
      ({ c with program_counter := (c.registers.read rs : Int) }, none)
    else if fn = 0x18 then -- mult
      ({ c with registers := c.registers.write 32 (((v1 * v2) &&& 0xFFFFFFFF : Nat) : Int) }, none)
    else if fn = 0x1A then -- div: skipped entirely on zero divisor
      (if v2 ≠ 0 then
        { c with registers := c.registers.write 32 ((v1 / v2 &&& 0xFFFFFFFF : Nat) : Int) }
      else c, none)
    else if fn = 0x12 then -- mflo
      ({ c with registers := c.registers.write rd ((c.registers.read 32 : Nat) : Int) }, none)
    else (c, none)
  | Instr.I op rs rt imm =>
    let rs_val := c.registers.read rs
    if op = 0x08 then      -- addi
      ({ c with registers := c.registers.write rt ((rs_val : Int) + imm) }, none)
    else if op = 0x23 then -- lw
      match c.memory.load_word ((rs_val : Int) + imm) with
      | Except.ok w => ({ c with registers := c.registers.write rt (w : Int) }, none)
      | Except.error e => (c, some e)
    else if op = 0x2B then -- sw
      match c.memory.store_word ((rs_val : Int) + imm) (c.registers.read rt) with
      | Except.ok m => ({ c with memory := m }, none)
      | Except.error e => (c, some e)
    else if op = 0x04 then -- beq
      (if c.registers.read rs = c.registers.read rt then
        { c with program_counter := c.program_counter + imm * 4 }
      else c, none)
    else if op = 0x05 then -- bne
      (if c.registers.read rs ≠ c.registers.read rt then
        { c with program_counter := c.program_counter + imm * 4 }
      else c, none)
    else (c, none)
  | Instr.J op addr =>
    -- Python (pc & 0xF0000000) | (addr << 2); pc & m = (pc mod 2^32) & m
    let target : Int :=
      ((((c.program_counter % 4294967296).toNat &&& 0xF0000000) ||| (addr <<< 2) : Nat) : Int)
    if op = 0x02 then      -- j
      ({ c with program_counter := target }, none)
    else if op = 0x03 then -- jal
      ({ c with registers := c.registers.write 31 c.program_counter,
                program_counter := target }, none)
    else (c, none)

/-- One fetch-decode-execute cycle (`CPU.run` loop body).  A fetch error
(raised by `load_word` before the counter is advanced) leaves the state
untouched; otherwise the counter is advanced by 4, the word decoded and
executed. -/
def CPU.step (c : CPU) : CPU × Option Unit :=
  match c.memory.load_word c.program_counter with
  | Except.error e => (c, some e)
  | Except.ok instr =>
      CPU.execute { c with program_counter := c.program_counter + 4 } (CPU.decode instr)

/-- Run the CPU for the given number of cycles (`CPU.run`): cycles execute
sequentially; the first raised error aborts the remaining cycles and is
surfaced, leaving the state as of the raise point. -/
def CPU.run (c : CPU) : Nat → CPU × Option Unit
  | 0 => (c, none)
  | cycles + 1 =>
    match CPU.step c with
    | (c2, none) => CPU.run c2 cycles
    | (c2, some e) => (c2, some e)

/-! ## Helper lemmas -/

/-- Reading back the slot just written (nonzero index) gives the 32-bit
masked value. -/
theorem RegisterFile.read_write_self (r : RegisterFile) (i : Nat) (v : Int) (hi : i ≠ 0) :
    (r.write i v).read i = (v % 4294967296).toNat := by
  simp [RegisterFile.write, RegisterFile.read, hi]

/-- Writing one slot leaves every other slot unchanged (and writes to
slot 0 change nothing at all). -/
theorem RegisterFile.read_write_other (r : RegisterFile) (i j : Nat) (v : Int) (hj : j ≠ i) :
    (r.write i v).read j = r.read j := by
  unfold RegisterFile.write RegisterFile.read
  split
  · rfl
  · simp [hj]

/-- A `Nat` masked by `0xFFFFFFFF` equals its remainder mod `2^32`. -/
theorem and_mask32_eq_mod (n : Nat) : n &&& 0xFFFFFFFF = n % 4294967296 := by
  have h := Nat.and_pow_two_sub_one_eq_mod n 32
  norm_num at h
  exact h

/-- Casting a `Nat` to `Int`, reducing mod `2^32` and truncating back is
plain `Nat` remainder. -/
theorem toNat_emod_cast (m : Nat) : (((m : Int)) % 4294967296).toNat = m % 4294967296 := by
  omega

/-- Memory whose initial bytes come from a list (later bytes zero); used
to build concrete states. -/
def Memory.ofBytes (bs : List Nat) (size : Nat) : Memory :=
  ⟨fun j => bs.getD j 0, size⟩

/-! ## Claim C9: `mult` writes only the auxiliary register -/

/-- C9: a cycle fetching a `mult` instruction (R-shape, funct `0x18`)
stores `(v_rs * v_rt) & 0xFFFFFFFF` — the product with its high-order bits
discarded, i.e. the product mod `2^32` — into slot 32 only: every other
register slot, the whole memory, and everything except the advanced
program counter are unchanged, and no error occurs. -/
theorem mult_writes_only_lo (c : CPU) (w rs rt rd sh : Nat)
    (hw : c.memory.load_word c.program_counter = Except.ok w)
    (hdec : CPU.decode w = Instr.R rs rt rd sh 0x18) :
    CPU.step c =
      ({ c with program_counter := c.program_counter + 4,
                registers := c.registers.write 32
                  (((c.registers.read rs * c.registers.read rt) &&& 0xFFFFFFFF : Nat) : Int) },
        none) ∧
    (CPU.step c).1.registers.read 32 =
      (c.registers.read rs * c.registers.read rt) % 4294967296 ∧
    (∀ i, i ≠ 32 → (CPU.step c).1.registers.read i = c.registers.read i) ∧
    (CPU.step c).1.memory = c.memory ∧
    (CPU.step c).1.program_counter = c.program_counter + 4 := by
  have hstep : CPU.step c =
      ({ c with program_counter := c.program_counter + 4,
                registers := c.registers.write 32
                  (((c.registers.read rs * c.registers.read rt) &&& 0xFFFFFFFF : Nat) : Int) },
        none) := by
    unfold CPU.step
    rw [hw]
    dsimp only
    rw [hdec]
    simp [CPU.execute, RegisterFile.read]
  refine ⟨hstep, ?_, ?_, ?_, ?_⟩
  · rw [hstep]
    rw [RegisterFile.read_write_self _ _ _ (by decide)]
    rw [toNat_emod_cast, and_mask32_eq_mod]
    omega
  · intro i hi
    rw [hstep]
    exact RegisterFile.read_write_other _ _ _ _ hi
  · rw [hstep]
  · rw [hstep]

/-- Concrete CPU used to witness the `mult` claim: a `mult $3,$1,$2`
word in memory at the program counter, registers 1 and 2 holding
100000. -/
def multCPU : CPU :=
  { memory := Memory.ofBytes [0x00, 0x22, 0x18, 0x18] 16
    registers := ⟨fun i => if i = 1 then 100000 else if i = 2 then 100000 else 0⟩
    program_counter := 0 }

/-- Witness for C9 at a concrete state: 100000 * 100000 truncates to
`10^10 mod 2^32`. -/
theorem mult_writes_only_lo_witness :
    (CPU.step multCPU).1.registers.read 32 =
      (multCPU.registers.read 1 * multCPU.registers.read 2) % 4294967296 ∧
    (CPU.step multCPU).1.memory = multCPU.memory :=
  ⟨(mult_writes_only_lo multCPU 0x00221818 1 2 3 0 rfl rfl).2.1,
   (mult_writes_only_lo multCPU 0x00221818 1 2 3 0 rfl rfl).2.2.2.1⟩

/-! ## Claim C7: `div` by zero is silently skipped -/

/-- C7: executing `div` (R-shape, funct `0x1A`) with a zero divisor
register raises no error and changes nothing at all — in particular the
auxiliary register keeps its prior value; with a nonzero divisor the
integer quotient masked to 32 bits lands in the auxiliary register. -/
theorem div_zero_skips (c : CPU) (rs rt rd sh : Nat) :
    (c.registers.read rt = 0 →
      CPU.execute c (Instr.R rs rt rd sh 0x1A) = (c, none) ∧
      (CPU.execute c (Instr.R rs rt rd sh 0x1A)).1.registers.read 32 =
        c.registers.read 32) ∧
    (c.registers.read rt ≠ 0 →
      (CPU.execute c (Instr.R rs rt rd sh 0x1A)).2 = none ∧
      (CPU.execute c (Instr.R rs rt rd sh 0x1A)).1.registers.read 32 =
        c.registers.read rs / c.registers.read rt &&& 0xFFFFFFFF) := by
  constructor
  · intro h0
    have hx : CPU.execute c (Instr.R rs rt rd sh 0x1A) = (c, none) := by
      simp [CPU.execute, h0]
    exact ⟨hx, by rw [hx]⟩
  · intro h0
    have hx : CPU.execute c (Instr.R rs rt rd sh 0x1A) =
        ({ c with registers := c.registers.write 32
                    ((c.registers.read rs / c.registers.read rt &&& 0xFFFFFFFF : Nat) : Int) },
          none) := by
      simp [CPU.execute, h0]
    refine ⟨by rw [hx], ?_⟩
    rw [hx]
    rw [RegisterFile.read_write_self _ _ _ (by decide), toNat_emod_cast, and_mask32_eq_mod]
    omega

/-- Concrete CPU used to witness the `div` claim: register 1 holds 7,
register 2 holds 0, the auxiliary register holds 99. -/
def divCPU : CPU :=
  { memory := Memory.ofBytes [] 16
    registers := ⟨fun i => if i = 1 then 7 else if i = 32 then 99 else 0⟩
    program_counter := 0 }

/-- Witness for C7: dividing by the zero in register 2 is skipped and the
auxiliary register still holds 99. -/
theorem div_zero_skips_witness :
    CPU.execute divCPU (Instr.R 1 2 3 0 0x1A) = (divCPU, none) ∧
    (CPU.execute divCPU (Instr.R 1 2 3 0 0x1A)).1.registers.read 32 = 99 :=
  ⟨((div_zero_skips divCPU 1 2 3 0).1 rfl).1,
    by rw [((div_zero_skips divCPU 1 2 3 0).1 rfl).2]; rfl⟩

/-! ## Claim C8: `slt` compares the raw stored values (unsigned) -/

/-- C8: `slt` (R-shape, funct `0x2A`) writes 1 to the destination when the
raw stored value of `rs` is less than the raw stored value of `rt`, else 0
— an unsigned comparison.  In particular with `rs` holding `0xFFFFFFFF`
(whose signed two's-complement reading `0xFFFFFFFF - 2^32 = -1` is below
1) and `rt` holding 1, the result is 0, which a signed comparison would
have made 1. -/
theorem slt_unsigned_compare (c : CPU) (rs rt rd sh : Nat) (hrd : rd ≠ 0) :
    ((CPU.execute c (Instr.R rs rt rd sh 0x2A)).1.registers.read rd =
      if c.registers.read rs < c.registers.read rt then 1 else 0) ∧
    (CPU.execute c (Instr.R rs rt rd sh 0x2A)).2 = none ∧
    (c.registers.read rs = 0xFFFFFFFF → c.registers.read rt = 1 →
      (CPU.execute c (Instr.R rs rt rd sh 0x2A)).1.registers.read rd = 0 ∧
      ((0xFFFFFFFF : Int) - 4294967296 < 1)) := by
  have hx : CPU.execute c (Instr.R rs rt rd sh 0x2A) =
      ({ c with registers := c.registers.write rd
                  (if c.registers.read rs < c.registers.read rt then 1 else 0) },
        none) := by
    simp [CPU.execute]
  have hread : (CPU.execute c (Instr.R rs rt rd sh 0x2A)).1.registers.read rd =
      if c.registers.read rs < c.registers.read rt then 1 else 0 := by
    rw [hx]
    rw [RegisterFile.read_write_self _ _ _ hrd]
    split <;> rfl
  refine ⟨hread, by rw [hx], ?_⟩
  intro h1 h2
  refine ⟨?_, by norm_num⟩
  rw [hread, h1, h2]
  norm_num

/-- Concrete CPU used to witness the `slt` claim: register 1 holds
`0xFFFFFFFF`, register 2 holds 1. -/
def sltCPU : CPU :=
  { memory := Memory.ofBytes [] 16
    registers := ⟨fun i => if i = 1 then 0xFFFFFFFF else if i = 2 then 1 else 0⟩
    program_counter := 0 }

/-- Witness for C8: `slt $3,$1,$2` on `0xFFFFFFFF` versus 1 writes 0. -/
theorem slt_unsigned_compare_witness :
    (CPU.execute sltCPU (Instr.R 1 2 3 0 0x2A)).1.registers.read 3 = 0 :=
  ((slt_unsigned_compare sltCPU 1 2 3 0 (by decide)).2.2 rfl rfl).1

/-! ## Claim C10: unimplemented operations change nothing -/

/-- Function codes handled by the R-shape dispatch of `CPU.execute`. -/
def implementedR (fn : Nat) : Prop :=
  fn = 0x20 ∨ fn = 0x22 ∨ fn = 0x00 ∨ fn = 0x2A ∨ fn = 0x26 ∨ fn = 0x25 ∨
    fn = 0x27 ∨ fn = 0x24 ∨ fn = 0x08 ∨ fn = 0x18 ∨ fn = 0x1A ∨ fn = 0x12

instance (fn : Nat) : Decidable (implementedR fn) := by
  unfold implementedR; infer_instance

/-- Opcodes handled by the I-shape dispatch of `CPU.execute`. -/
def implementedI (op : Nat) : Prop :=
  op = 0x08 ∨ op = 0x23 ∨ op = 0x2B ∨ op = 0x04 ∨ op = 0x05

instance (op : Nat) : Decidable (implementedI op) := by
  unfold implementedI; infer_instance

/-- C10: a cycle fetching a word that decodes to an R-shape whose function
code, or an I-shape whose opcode, is not in the dispatch changes no
register slot and no memory byte; its only effect is advancing the program
counter by 4, with no error. -/
theorem unknown_op_noop (c : CPU) (w : Nat)
    (hw : c.memory.load_word c.program_counter = Except.ok w)
    (hunimpl :
      (∃ rs rt rd sh fn, CPU.decode w = Instr.R rs rt rd sh fn ∧ ¬ implementedR fn) ∨
      (∃ op rs rt imm, CPU.decode w = Instr.I op rs rt imm ∧ ¬ implementedI op)) :
    CPU.step c = ({ c with program_counter := c.program_counter + 4 }, none) := by
  unfold CPU.step
  rw [hw]
  dsimp only
  rcases hunimpl with ⟨rs, rt, rd, sh, fn, hdec, hfn⟩ | ⟨op, rs, rt, imm, hdec, hop⟩
  · rw [hdec]
    unfold implementedR at hfn
    push_neg at hfn
    obtain ⟨h1, h2, h3, h4, h5, h6, h7, h8, h9, h10, h11, h12⟩ := hfn
    simp only [CPU.execute, if_neg h1, if_neg h2, if_neg h3, if_neg h4, if_neg h5,
      if_neg h6, if_neg h7, if_neg h8, if_neg h9, if_neg h10, if_neg h11, if_neg h12]
  · rw [hdec]
    unfold implementedI at hop
    push_neg at hop
    obtain ⟨h1, h2, h3, h4, h5⟩ := hop
    simp only [CPU.execute, if_neg h1, if_neg h2, if_neg h3, if_neg h4, if_neg h5]

/-- Concrete CPU used to witness the unimplemented-operation claim: the
word at the program counter is `0x0000003F`, an R-shape with the unused
function code `0x3F`. -/
def unkCPU : CPU :=
  { memory := Memory.ofBytes [0x00, 0x00, 0x00, 0x3F] 16
    registers := ⟨fun i => if i = 1 then 5 else 0⟩
    program_counter := 0 }

/-- Witness for C10: stepping over the `0x3F` word only advances the
program counter. -/
theorem unknown_op_noop_witness :
    CPU.step unkCPU = ({ unkCPU with program_counter := unkCPU.program_counter + 4 }, none) :=
  unknown_op_noop unkCPU 0x3F rfl (Or.inl ⟨0, 0, 0, 0, 0x3F, rfl, by decide⟩)

/-! ## Claim C3: `beq`/`bne` program-counter update -/

/-- C3: for a cycle fetching a `beq` (opcode 4) or `bne` (opcode 5)
instruction, the not-taken case leaves the program counter exactly at the
sequentially advanced value (branch address + 4), and the taken case sets
it to the fetch-advanced counter plus `immediate * 4`, the immediate being
the sign-extended 16-bit field. -/
theorem branch_pc_update (c : CPU) (w op rs rt : Nat) (imm : Int)
    (hw : c.memory.load_word c.program_counter = Except.ok w)
    (hdec : CPU.decode w = Instr.I op rs rt imm)
    (hop : op = 0x04 ∨ op = 0x05) :
    (CPU.step c).2 = none ∧
    ((op = 0x04 ∧ c.registers.read rs = c.registers.read rt) ∨
        (op = 0x05 ∧ c.registers.read rs ≠ c.registers.read rt) →
      (CPU.step c).1.program_counter = c.program_counter + 4 + imm * 4) ∧
    ((op = 0x04 ∧ c.registers.read rs ≠ c.registers.read rt) ∨
        (op = 0x05 ∧ c.registers.read rs = c.registers.read rt) →
      (CPU.step c).1.program_counter = c.program_counter + 4) := by
  rcases hop with h | h
  · subst h
    by_cases hc : c.registers.read rs = c.registers.read rt
    · have hx : CPU.step c =
          ({ c with program_counter := c.program_counter + 4 + imm * 4 }, none) := by
        unfold CPU.step
        rw [hw]
        dsimp only
        rw [hdec]
        simp [CPU.execute, hc]
      refine ⟨by rw [hx], fun _ => by rw [hx], ?_⟩
      rintro (⟨-, hne⟩ | ⟨habs, -⟩)
      · exact absurd hc hne
      · exact absurd habs (by decide)
    · have hx : CPU.step c =
          ({ c with program_counter := c.program_counter + 4 }, none) := by
        unfold CPU.step
        rw [hw]
        dsimp only
        rw [hdec]
        simp [CPU.execute, hc]
      refine ⟨by rw [hx], ?_, fun _ => by rw [hx]⟩
      rintro (⟨-, heq⟩ | ⟨habs, -⟩)
      · exact absurd heq hc
      · exact absurd habs (by decide)
  · subst h
    by_cases hc : c.registers.read rs = c.registers.read rt
    · have hx : CPU.step c =
          ({ c with program_counter := c.program_counter + 4 }, none) := by
        unfold CPU.step
        rw [hw]
        dsimp only
        rw [hdec]
        simp [CPU.execute, hc]
      refine ⟨by rw [hx], ?_, fun _ => by rw [hx]⟩
      rintro (⟨habs, -⟩ | ⟨-, hne⟩)
      · exact absurd habs (by decide)
      · exact absurd hc hne
    · have hx : CPU.step c =
          ({ c with program_counter := c.program_counter + 4 + imm * 4 }, none) := by
        unfold CPU.step
        rw [hw]
        dsimp only
        rw [hdec]
        simp [CPU.execute, hc]
      refine ⟨by rw [hx], fun _ => by rw [hx], ?_⟩
      rintro (⟨habs, -⟩ | ⟨-, heq⟩)
      · exact absurd habs (by decide)
      · exact absurd heq hc

/-- Concrete CPU used to witness the branch claim: a `beq $0,$0,+2` word
(equal operands, so the branch is taken) at the program counter. -/
def beqCPU : CPU :=
  { memory := Memory.ofBytes [0x10, 0x00, 0x00, 0x02] 16
    registers := ⟨fun _ => 0⟩
    program_counter := 0 }

/-- Witness for C3: the taken `beq` with immediate 2 lands the program
counter at `0 + 4 + 2*4 = 12`. -/
theorem branch_pc_update_witness :
    (CPU.step beqCPU).1.program_counter = beqCPU.program_counter + 4 + 2 * 4 :=
  (branch_pc_update beqCPU 0x10000002 0x04 0 0 2 rfl rfl (Or.inl rfl)).2.1
    (Or.inl ⟨rfl, rfl⟩)

/-! ## Claim C6: `jal` links the return address for a later `jr` -/

/-- C6: a cycle fetching a `jal` (J-shape, opcode 3) writes the already
advanced program counter (the address right after the `jal`) into
register 31 and sets the counter to
`(PC_after_fetch & 0xF0000000) | (address << 2)`; consequently any later
cycle fetching `jr $31` while register 31 still holds that value transfers
control back to the instruction immediately after the `jal`. -/
theorem jal_then_jr_returns (c : CPU) (w addr : Nat)
    (hw : c.memory.load_word c.program_counter = Except.ok w)
    (hdec : CPU.decode w = Instr.J 0x03 addr)
    (hlo : 0 ≤ c.program_counter + 4)
    (hhi : c.program_counter + 4 < 4294967296) :
    (CPU.step c).2 = none ∧
    (CPU.step c).1.registers.read 31 = (c.program_counter + 4).toNat ∧
    (CPU.step c).1.program_counter =
      (((((c.program_counter + 4) % 4294967296).toNat &&& 0xF0000000) |||
        (addr <<< 2) : Nat) : Int) ∧
    (∀ (c2 : CPU) (w2 rt rd sh : Nat),
      c2.registers.read 31 = (c.program_counter + 4).toNat →
      c2.memory.load_word c2.program_counter = Except.ok w2 →
      CPU.decode w2 = Instr.R 31 rt rd sh 0x08 →
      (CPU.step c2).1.program_counter = c.program_counter + 4) := by
  have hx : CPU.step c =
      ({ c with
          registers := c.registers.write 31 (c.program_counter + 4),
          program_counter :=
            (((((c.program_counter + 4) % 4294967296).toNat &&& 0xF0000000) |||
              (addr <<< 2) : Nat) : Int) }, none) := by
    unfold CPU.step
    rw [hw]
    dsimp only
    rw [hdec]
    simp [CPU.execute]
  refine ⟨by rw [hx], ?_, by rw [hx], ?_⟩
  · rw [hx]
    rw [RegisterFile.read_write_self _ _ _ (by decide)]
    omega
  · intro c2 w2 rt rd sh h31 hw2 hdec2
    have hx2 : CPU.step c2 =
        ({ c2 with program_counter := ((c2.registers.read 31 : Nat) : Int) }, none) := by
      unfold CPU.step
      rw [hw2]
      dsimp only
      rw [hdec2]
      simp [CPU.execute, RegisterFile.read]
    rw [hx2]
    dsimp only
    rw [h31]
    omega

/-- Concrete CPU used to witness the `jal`/`jr` claim: a `jal 4` word at
address 0 (jump target 16) and a `jr $31` word at address 16. -/
def jalCPU : CPU :=
  { memory := Memory.ofBytes
      [0x0C, 0x00, 0x00, 0x04, 0, 0, 0, 0, 0, 0, 0, 0, 0, 0, 0, 0,
        0x03, 0xE0, 0x00, 0x08] 32
    registers := ⟨fun _ => 0⟩
    program_counter := 0 }

/-- Witness for C6: after the `jal` at address 0, register 31 holds 4 and
the `jr $31` fetched at the jump target sends the program counter back
to 4. -/
theorem jal_then_jr_returns_witness :
    (CPU.step jalCPU).1.registers.read 31 = ((0 : Int) + 4).toNat ∧
    (CPU.step (CPU.step jalCPU).1).1.program_counter = (0 : Int) + 4 :=
  ⟨(jal_then_jr_returns jalCPU 0x0C000004 4 rfl rfl (by decide) (by decide)).2.1,
    (jal_then_jr_returns jalCPU 0x0C000004 4 rfl rfl (by decide) (by decide)).2.2.2
      (CPU.step jalCPU).1 0x03E00008 0 0 0 rfl rfl rfl⟩

/-! ## Claim C5: store/load word round-trip, big-endian -/

/-- A `Nat` masked by `0xFF` equals its remainder mod 256. -/
theorem and_mask8_eq_mod (n : Nat) : n &&& 0xFF = n % 256 := by
  have h := Nat.and_pow_two_sub_one_eq_mod n 8
  norm_num at h
  exact h

/-- Shifting left by a byte and or-ing in a value below 256 is plain
positional arithmetic. -/
theorem shiftLeft_or_eq_add (a b : Nat) (hb : b < 256) :
    a <<< 8 ||| b = a * 256 + b := by
  have h2 : (2 : Nat) ^ 8 * a + b = 2 ^ 8 * a ||| b :=
    Nat.mul_add_lt_is_or (by norm_num; exact hb) a
  rw [Nat.shiftLeft_eq]
  norm_num at h2 ⊢
  rw [Nat.mul_comm] at h2
  exact h2.symm

/-- Variant of `shiftLeft_or_eq_add` whose low byte is syntactically a
remainder, for direct rewriting. -/
theorem shiftLeft_or_mod (x y : Nat) : x <<< 8 ||| y % 256 = x * 256 + y % 256 :=
  shiftLeft_or_eq_add x (y % 256) (Nat.mod_lt _ (by norm_num))

/-- C5: for every 32-bit value and every address whose translated index
fits (index + 3 < capacity), `store_word` succeeds, writes the four bytes
of the value most-significant first, and a `load_word` at the same address
reassembles exactly the stored value. -/
theorem store_load_roundtrip (m : Memory) (a : Int) (v : Nat)
    (hv : v < 4294967296)
    (hin : Memory.translate a + 3 < m.size) :
    ∃ m2, m.store_word a v = Except.ok m2 ∧
      m2.load_word a = Except.ok v ∧
      m2.data (Memory.translate a) = v / 16777216 % 256 ∧
      m2.data (Memory.translate a + 1) = v / 65536 % 256 ∧
      m2.data (Memory.translate a + 2) = v / 256 % 256 ∧
      m2.data (Memory.translate a + 3) = v % 256 := by
  have hnot : ¬ (Memory.translate a + 3 ≥ m.size) := by omega
  refine ⟨⟨fun j =>
      if j = Memory.translate a then (v >>> 24) &&& 0xFF
      else if j = Memory.translate a + 1 then (v >>> 16) &&& 0xFF
      else if j = Memory.translate a + 2 then (v >>> 8) &&& 0xFF
      else if j = Memory.translate a + 3 then v &&& 0xFF
      else m.data j, m.size⟩, ?_, ?_, ?_, ?_, ?_, ?_⟩
  · simp only [Memory.store_word]
    rw [if_neg hnot]
  · have h10 : ¬ (Memory.translate a + 1 = Memory.translate a) := by omega
    have h20 : ¬ (Memory.translate a + 2 = Memory.translate a) := by omega
    have h21 : ¬ (Memory.translate a + 2 = Memory.translate a + 1) := by omega
    have h30 : ¬ (Memory.translate a + 3 = Memory.translate a) := by omega
    have h31 : ¬ (Memory.translate a + 3 = Memory.translate a + 1) := by omega
    have h32 : ¬ (Memory.translate a + 3 = Memory.translate a + 2) := by omega
    simp only [Memory.load_word]
    rw [if_neg hnot]
    simp only [h10, h20, h21, h30, h31, h32, if_true, if_false]
    rw [Nat.shiftRight_eq_div_pow, Nat.shiftRight_eq_div_pow, Nat.shiftRight_eq_div_pow,
      and_mask8_eq_mod, and_mask8_eq_mod, and_mask8_eq_mod, and_mask8_eq_mod]
    rw [shiftLeft_or_mod, shiftLeft_or_mod, shiftLeft_or_mod]
    simp only [Except.ok.injEq]
    omega
  · dsimp only
    rw [if_pos rfl, Nat.shiftRight_eq_div_pow, and_mask8_eq_mod]
  · dsimp only
    rw [if_neg (by omega), if_pos rfl, Nat.shiftRight_eq_div_pow, and_mask8_eq_mod]
  · dsimp only
    rw [if_neg (by omega), if_neg (by omega), if_pos rfl,
      Nat.shiftRight_eq_div_pow, and_mask8_eq_mod]
  · dsimp only
    rw [if_neg (by omega), if_neg (by omega), if_neg (by omega), if_pos rfl,
      and_mask8_eq_mod]

/-- Witness for C5: storing `0xDEADBEEF` at address `0x10000008` into a
fresh 2 MiB memory and loading it back returns `0xDEADBEEF`, with the
bytes laid out most-significant first. -/
theorem store_load_roundtrip_witness :
    ∃ m2, (Memory.ofBytes [] (2 * 1024 * 1024)).store_word 0x10000008 0xDEADBEEF =
        Except.ok m2 ∧
      m2.load_word 0x10000008 = Except.ok 0xDEADBEEF ∧
      m2.data (Memory.translate 0x10000008) = 0xDEADBEEF / 16777216 % 256 ∧
      m2.data (Memory.translate 0x10000008 + 1) = 0xDEADBEEF / 65536 % 256 ∧
      m2.data (Memory.translate 0x10000008 + 2) = 0xDEADBEEF / 256 % 256 ∧
      m2.data (Memory.translate 0x10000008 + 3) = 0xDEADBEEF % 256 :=
  store_load_roundtrip (Memory.ofBytes [] (2 * 1024 * 1024)) 0x10000008 0xDEADBEEF
    (by norm_num) (by decide)

/-! ## Claim C2: decoder bit layout and sign extension -/

/-- A shift right by `k` masked with `0x1F` extracts the five bits
`k+4 .. k` as `w / 2^k % 32`. -/
theorem shr_and_mask5 (w k : Nat) : (w >>> k) &&& 0x1F = w / 2 ^ k % 32 := by
  rw [Nat.shiftRight_eq_div_pow]
  have h := Nat.and_pow_two_sub_one_eq_mod (w / 2 ^ k) 5
  norm_num at h
  exact h

/-- For a 32-bit word the opcode field `(w >>> 26) & 0x3F` is just
`w / 2^26`. -/
theorem opcode_field (w : Nat) (hw : w < 4294967296) :
    (w >>> 26) &&& 0x3F = w / 2 ^ 26 := by
  rw [Nat.shiftRight_eq_div_pow]
  have hlt : w / 2 ^ 26 < 2 ^ 6 := by omega
  have h := Nat.and_pow_two_sub_one_of_lt_two_pow hlt
  norm_num at h
  exact h

/-- Testing bit 15 by masking: nonzero exactly when the low 16-bit value
reaches `0x8000`. -/
theorem and_bit15_ne_zero (x : Nat) (hx : x < 65536) :
    x &&& 0x8000 ≠ 0 ↔ ¬ x < 32768 := by
  rw [show (0x8000 : Nat) = 2 ^ 15 by norm_num, Nat.and_two_pow,
    Nat.testBit_to_div_mod]
  rcases Nat.lt_or_ge x 32768 with h | h
  · have hz : x / 2 ^ 15 % 2 = 0 := by omega
    simp [hz]
    omega
  · have ho : x / 2 ^ 15 % 2 = 1 := by omega
    simp [ho]
    omega

/-- C2: `decode` is a pure function of the word giving exactly one of the
three shapes: opcode bits 31..26 equal to 0 give the R-shape with the five
register/shift fields and the six-bit function code; opcodes 2 and 3 give
the J-shape carrying the low 26 bits; every other opcode gives the I-shape
with the 16-bit immediate sign-extended (value as-is below `0x8000`, value
minus `0x10000` otherwise), so immediate field `0xFFFF` decodes to `-1`
and `0x7FFF` to `32767`. -/
theorem decode_bit_layout (w : Nat) (hw : w < 4294967296) :
    (w / 2 ^ 26 = 0 →
      CPU.decode w = Instr.R (w / 2 ^ 21 % 32) (w / 2 ^ 16 % 32) (w / 2 ^ 11 % 32)
        (w / 2 ^ 6 % 32) (w % 64)) ∧
    (w / 2 ^ 26 = 2 ∨ w / 2 ^ 26 = 3 →
      CPU.decode w = Instr.J (w / 2 ^ 26) (w % 67108864)) ∧
    (w / 2 ^ 26 ≠ 0 → w / 2 ^ 26 ≠ 2 → w / 2 ^ 26 ≠ 3 →
      CPU.decode w = Instr.I (w / 2 ^ 26) (w / 2 ^ 21 % 32) (w / 2 ^ 16 % 32)
        (if w % 65536 < 32768 then ((w % 65536 : Nat) : Int)
          else ((w % 65536 : Nat) : Int) - 65536)) ∧
    CPU.decode 0x2008FFFF = Instr.I 8 0 8 (-1) ∧
    CPU.decode 0x20087FFF = Instr.I 8 0 8 32767 := by
  have hmask64 : w &&& 0x3F = w % 64 := by
    have h := Nat.and_pow_two_sub_one_eq_mod w 6
    norm_num at h
    exact h
  have hmask26 : w &&& 0x03FFFFFF = w % 67108864 := by
    have h := Nat.and_pow_two_sub_one_eq_mod w 26
    norm_num at h
    exact h
  have hmask16 : w &&& 0xFFFF = w % 65536 := by
    have h := Nat.and_pow_two_sub_one_eq_mod w 16
    norm_num at h
    exact h
  have hop := opcode_field w hw
  refine ⟨?_, ?_, ?_, by decide, by decide⟩
  · intro h0
    unfold CPU.decode
    simp only [hop]
    rw [if_pos h0, shr_and_mask5, shr_and_mask5, shr_and_mask5, shr_and_mask5, hmask64]
  · intro h23
    unfold CPU.decode
    simp only [hop]
    have h0 : ¬ (w / 2 ^ 26 = 0) := by rcases h23 with h | h <;> omega
    rw [if_neg h0, if_pos h23, hmask26]
  · intro h0 h2 h3
    unfold CPU.decode
    simp only [hop]
    have h23 : ¬ (w / 2 ^ 26 = 2 ∨ w / 2 ^ 26 = 3) := by tauto
    rw [if_neg h0, if_neg h23, hmask16, shr_and_mask5, shr_and_mask5]
    by_cases hbit : w % 65536 < 32768
    · have hcond : ¬ (w % 65536 &&& 0x8000 ≠ 0) := by
        rw [and_bit15_ne_zero (w % 65536) (by omega)]
        exact not_not_intro hbit
      rw [if_neg hcond, if_pos hbit]
    · have hcond : w % 65536 &&& 0x8000 ≠ 0 :=
        (and_bit15_ne_zero (w % 65536) (by omega)).mpr hbit
      rw [if_pos hcond, if_neg hbit]

/-- Witness for C2 at concrete words: immediate field `0xFFFF` gives `-1`,
`0x7FFF` gives `32767`. -/
theorem decode_bit_layout_witness :
    CPU.decode 0x2008FFFF = Instr.I 8 0 8 (-1) ∧
    CPU.decode 0x20087FFF = Instr.I 8 0 8 32767 :=
  (decode_bit_layout 0x2008FFFF (by norm_num)).2.2.2

/-! ## Claim C4: register-file invariant -/

/-- Register-file states reachable in the simulator: the zero-initialized
file of the constructor, closed under `write` at the indices the source
can store to without raising (0..32; larger indices raise an `IndexError`
in the Python list and produce no new state). -/
inductive RegReachable : RegisterFile → Prop where
  | init : RegReachable RegisterFile.init
  | write (r : RegisterFile) (i : Nat) (v : Int) (hi : i ≤ 32) :
      RegReachable r → RegReachable (r.write i v)

/-- Every reachable register file keeps slot 0 at zero and every slot
below `2^32`. -/
theorem regOk_of_reachable (r : RegisterFile) (h : RegReachable r) :
    r.registers 0 = 0 ∧ ∀ i, r.registers i < 4294967296 := by
  induction h with
  | init => exact ⟨rfl, fun i => by norm_num [RegisterFile.init]⟩
  | write r i v hi hr ih =>
    unfold RegisterFile.write
    split
    · exact ih
    · rename_i hne
      refine ⟨?_, ?_⟩
      · dsimp only
        rw [if_neg fun h0 => hne h0.symm]
        exact ih.1
      · intro j
        dsimp only
        split
        · omega
        · exact ih.2 j

/-- A five-bit field is at most 31, hence a legal register index. -/
theorem and_mask5_le (x : Nat) : x &&& 0x1F ≤ 32 := by
  have h := Nat.and_pow_two_sub_one_eq_mod x 5
  norm_num at h
  omega

/-- Executing any instruction whose register-index fields are legal
(which `decode` guarantees) keeps the register file reachable. -/
theorem regReachable_execute (c : CPU) (d : Instr) (h : RegReachable c.registers)
    (hR : ∀ rs rt rd sh fn, d = Instr.R rs rt rd sh fn → rd ≤ 32)
    (hI : ∀ op rs rt imm, d = Instr.I op rs rt imm → rt ≤ 32) :
    RegReachable (CPU.execute c d).1.registers := by
  match d with
  | Instr.R rs rt rd sh fn =>
    have hrd : rd ≤ 32 := hR rs rt rd sh fn rfl
    unfold CPU.execute
    dsimp only
    by_cases h1 : fn = 0x20
    · rw [if_pos h1]; exact RegReachable.write _ _ _ hrd h
    rw [if_neg h1]
    by_cases h2 : fn = 0x22
    · rw [if_pos h2]; exact RegReachable.write _ _ _ hrd h
    rw [if_neg h2]
    by_cases h3 : fn = 0x00
    · rw [if_pos h3]; exact RegReachable.write _ _ _ hrd h
    rw [if_neg h3]
    by_cases h4 : fn = 0x2A
    · rw [if_pos h4]; exact RegReachable.write _ _ _ hrd h
    rw [if_neg h4]
    by_cases h5 : fn = 0x26
    · rw [if_pos h5]; exact RegReachable.write _ _ _ hrd h
    rw [if_neg h5]
    by_cases h6 : fn = 0x25
    · rw [if_pos h6]; exact RegReachable.write _ _ _ hrd h
    rw [if_neg h6]
    by_cases h7 : fn = 0x27
    · rw [if_pos h7]; exact RegReachable.write _ _ _ hrd h
    rw [if_neg h7]
    by_cases h8 : fn = 0x24
    · rw [if_pos h8]; exact RegReachable.write _ _ _ hrd h
    rw [if_neg h8]
    by_cases h9 : fn = 0x08
    · rw [if_pos h9]; exact h
    rw [if_neg h9]
    by_cases h10 : fn = 0x18
    · rw [if_pos h10]; exact RegReachable.write _ 32 _ (by norm_num) h
    rw [if_neg h10]
    by_cases h11 : fn = 0x1A
    · rw [if_pos h11]
      split
      · exact RegReachable.write _ 32 _ (by norm_num) h
      · exact h
    rw [if_neg h11]
    by_cases h12 : fn = 0x12
    · rw [if_pos h12]; exact RegReachable.write _ _ _ hrd h
    rw [if_neg h12]
    exact h
  | Instr.I op rs rt imm =>
    have hrt : rt ≤ 32 := hI op rs rt imm rfl
    unfold CPU.execute
    dsimp only
    by_cases h1 : op = 0x08
    · rw [if_pos h1]; exact RegReachable.write _ _ _ hrt h
    rw [if_neg h1]
    by_cases h2 : op = 0x23
    · rw [if_pos h2]
      rcases hlw : c.memory.load_word ((c.registers.read rs : Int) + imm) with e | w2
      · exact h
      · exact RegReachable.write _ _ _ hrt h
    rw [if_neg h2]
    by_cases h3 : op = 0x2B
    · rw [if_pos h3]
      rcases hsw : c.memory.store_word ((c.registers.read rs : Int) + imm)
          (c.registers.read rt) with e | m2
      · exact h
      · exact h
    rw [if_neg h3]
    by_cases h4 : op = 0x04
    · rw [if_pos h4]
      split
      · exact h
      · exact h
    rw [if_neg h4]
    by_cases h5 : op = 0x05
    · rw [if_pos h5]
      split
      · exact h
      · exact h
    rw [if_neg h5]
    exact h
  | Instr.J op addr =>
    unfold CPU.execute
    dsimp only
    by_cases h1 : op = 0x02
    · rw [if_pos h1]; exact h
    rw [if_neg h1]
    by_cases h2 : op = 0x03
    · rw [if_pos h2]; exact RegReachable.write _ 31 _ (by norm_num) h
    rw [if_neg h2]
    exact h

set_option linter.unnecessarySeqFocus false in
/-- One fetch-decode-execute cycle keeps the register file reachable. -/
theorem regReachable_step (c : CPU) (h : RegReachable c.registers) :
    RegReachable (CPU.step c).1.registers := by
  unfold CPU.step
  rcases hm : c.memory.load_word c.program_counter with e | w
  · exact h
  · dsimp only
    refine regReachable_execute _ (CPU.decode w) ?_ ?_ ?_
    · exact h
    · intro rs rt rd sh fn hdec
      unfold CPU.decode at hdec
      dsimp only at hdec
      split_ifs at hdec <;> simp only [Instr.R.injEq] at hdec
      obtain ⟨-, -, hrd, -, -⟩ := hdec
      rw [← hrd]
      exact and_mask5_le _
    · intro op rs rt imm hdec
      unfold CPU.decode at hdec
      dsimp only at hdec
      split_ifs at hdec <;> simp only [Instr.I.injEq] at hdec <;>
        (obtain ⟨-, -, hrt, -⟩ := hdec
         rw [← hrt]
         exact and_mask5_le _)

/-- Running any number of cycles keeps the register file reachable. -/
theorem regReachable_run (c : CPU) (n : Nat) (h : RegReachable c.registers) :
    RegReachable (CPU.run c n).1.registers := by
  induction n generalizing c with
  | zero => exact h
  | succ n ih =>
    unfold CPU.run
    rcases hs : CPU.step c with ⟨c2, e⟩
    have h2 : RegReachable c2.registers := by
      have := regReachable_step c h
      rw [hs] at this
      exact this
    cases e with
    | none => exact ih c2 h2
    | some e => exact h2

/-- C4: in every reachable register-file state slot 0 holds 0 and all 33
slots hold values below `2^32`; `write(0, x)` is a no-op, `read(0)` always
returns 0, `write(i, v)` for `i` in 1..32 stores `v` masked to 32 bits
(`v mod 2^32`); and reachability — hence the invariant — is preserved by
construction, by every execute cycle and by every `run`. -/
theorem register_file_invariant :
    (∀ r, RegReachable r → r.registers 0 = 0 ∧ ∀ i, i < 33 → r.registers i < 4294967296) ∧
    (∀ (r : RegisterFile) (v : Int), RegisterFile.write r 0 v = r) ∧
    (∀ r, RegReachable r → r.read 0 = 0) ∧
    (∀ (r : RegisterFile) (i : Nat) (v : Int), 1 ≤ i → i ≤ 32 →
      (r.write i v).read i = (v % 4294967296).toNat) ∧
    (∀ m, RegReachable (CPU.init m).registers) ∧
    (∀ c, RegReachable c.registers → RegReachable (CPU.step c).1.registers) ∧
    (∀ c n, RegReachable c.registers → RegReachable (CPU.run c n).1.registers) := by
  refine ⟨?_, ?_, ?_, ?_, ?_, regReachable_step, regReachable_run⟩
  · intro r h
    exact ⟨(regOk_of_reachable r h).1, fun i _ => (regOk_of_reachable r h).2 i⟩
  · intro r v
    unfold RegisterFile.write
    rw [if_pos rfl]
  · intro r h
    exact (regOk_of_reachable r h).1
  · intro r i v h1 h2
    exact RegisterFile.read_write_self r i v (by omega)
  · intro m
    exact RegReachable.write _ 32 0 (by norm_num)
      (RegReachable.write _ 29 0x100000 (by norm_num) RegReachable.init)

/-- Witness for C4 at concrete inputs: the fresh file has slot 0 zero,
writing 0 is a no-op, writing `-1` to slot 5 stores it masked, and the
constructor state of a CPU over a small memory is reachable. -/
theorem register_file_invariant_witness :
    RegisterFile.init.registers 0 = 0 ∧
    RegisterFile.write RegisterFile.init 0 7 = RegisterFile.init ∧
    (RegisterFile.init.write 5 (-1)).read 5 = ((-1 : Int) % 4294967296).toNat ∧
    RegReachable (CPU.init (Memory.ofBytes [] 16)).registers :=
  ⟨(register_file_invariant.1 RegisterFile.init RegReachable.init).1,
    register_file_invariant.2.1 RegisterFile.init 7,
    register_file_invariant.2.2.2.1 RegisterFile.init 5 (-1) (by norm_num) (by norm_num),
    register_file_invariant.2.2.2.2.1 (Memory.ofBytes [] 16)⟩

/-! ## Claim C1: a memory error aborts the run and preserves state -/

/-- When `execute` raises, the state it hands back is exactly its input
state: `lw` raises before writing its register, `sw` bounds-checks before
touching any byte. -/
theorem execute_error_frame (c : CPU) (d : Instr) (e : Unit)
    (h : (CPU.execute c d).2 = some e) : (CPU.execute c d).1 = c := by
  match d with
  | Instr.R rs rt rd sh fn =>
    exfalso
    unfold CPU.execute at h
    dsimp only at h
    simp only [apply_ite (Prod.snd (α := CPU) (β := Option Unit)), ite_self] at h
    exact Option.noConfusion h
  | Instr.I op rs rt imm =>
    unfold CPU.execute at h ⊢
    dsimp only at h ⊢
    by_cases h1 : op = 0x08
    · rw [if_pos h1] at h
      exact Option.noConfusion h
    rw [if_neg h1] at h ⊢
    by_cases h2 : op = 0x23
    · rw [if_pos h2] at h ⊢
      rcases hlw : c.memory.load_word ((c.registers.read rs : Int) + imm) with e2 | w2
      · rfl
      · rw [hlw] at h
        exact Option.noConfusion h
    rw [if_neg h2] at h ⊢
    by_cases h3 : op = 0x2B
    · rw [if_pos h3] at h ⊢
      rcases hsw : c.memory.store_word ((c.registers.read rs : Int) + imm)
          (c.registers.read rt) with e2 | m2
      · rfl
      · rw [hsw] at h
        exact Option.noConfusion h
    rw [if_neg h3] at h ⊢
    by_cases h4 : op = 0x04
    · rw [if_pos h4] at h
      exact Option.noConfusion h
    rw [if_neg h4] at h ⊢
    by_cases h5 : op = 0x05
    · rw [if_pos h5] at h
      exact Option.noConfusion h
    rw [if_neg h5] at h
    exact Option.noConfusion h
  | Instr.J op addr =>
    exfalso
    unfold CPU.execute at h
    dsimp only at h
    simp only [apply_ite (Prod.snd (α := CPU) (β := Option Unit)), ite_self] at h
    exact Option.noConfusion h

/-- When a cycle raises, the registers and the memory the caller observes
are exactly those before the cycle (only the program counter may have
advanced). -/
theorem step_error_frame (c : CPU) (e : Unit) (h : (CPU.step c).2 = some e) :
    (CPU.step c).1.registers = c.registers ∧ (CPU.step c).1.memory = c.memory := by
  unfold CPU.step at h ⊢
  rcases hl : c.memory.load_word c.program_counter with e2 | w2
  · exact ⟨rfl, rfl⟩
  · rw [hl] at h
    have h1 := execute_error_frame _ _ _ h
    rw [h1]
    exact ⟨rfl, rfl⟩

/-- Cycles compose: after an error-free prefix the run continues from the
prefix's final state. -/
theorem run_none_add (c ck : CPU) (k m : Nat) (h : CPU.run c k = (ck, none)) :
    CPU.run c (k + m) = CPU.run ck m := by
  induction k generalizing c with
  | zero =>
    unfold CPU.run at h
    obtain ⟨rfl, -⟩ := Prod.mk.injEq _ _ _ _ |>.mp h
    rw [Nat.zero_add]
  | succ n ih =>
    rw [Nat.succ_add]
    simp only [CPU.run] at h ⊢
    rcases hs : CPU.step c with ⟨c2, e2⟩
    rw [hs] at h
    cases e2 with
    | none => exact ih c2 h
    | some e2 => exact absurd h (by simp)

/-- C1: if the cycle after `k` error-free cycles of `run n` (`k < n`)
fetches an `lw` or `sw` whose memory access raises, the run stops there
(cycles `k+2 .. n` never execute), the error reaches the caller, and the
registers and memory the caller can inspect are exactly those after the
`k`-th (last completed) cycle. -/
theorem run_aborts_on_memory_error (c ck : CPU) (n k : Nat) (w op rs rt : Nat)
    (imm : Int) (e : Unit)
    (hk : k < n)
    (hrun : CPU.run c k = (ck, none))
    (_hfetch : ck.memory.load_word ck.program_counter = Except.ok w)
    (_hdec : CPU.decode w = Instr.I op rs rt imm)
    (_hop : op = 0x23 ∨ op = 0x2B)
    (herr : (CPU.step ck).2 = some e) :
    CPU.run c n = ((CPU.step ck).1, some e) ∧
    (CPU.step ck).1.registers = ck.registers ∧
    (CPU.step ck).1.memory = ck.memory := by
  have hsplit : CPU.run c n = CPU.run ck (n - k) := by
    have h2 := run_none_add c ck k (n - k) hrun
    have hnk : k + (n - k) = n := by omega
    rw [hnk] at h2
    exact h2
  obtain ⟨m, hm⟩ : ∃ m, n - k = m + 1 := ⟨n - k - 1, by omega⟩
  refine ⟨?_, step_error_frame ck e herr⟩
  rw [hsplit, hm]
  unfold CPU.run
  rcases hs : CPU.step ck with ⟨c2, e2⟩
  rw [hs] at herr
  dsimp only at herr
  subst herr
  rfl

/-- Concrete CPU used to witness the abort claim: the word at the program
counter is `lw $8, 16($0)`, whose data address 16 is outside the 8-byte
memory, while the fetch itself is in bounds. -/
def lwErrCPU : CPU :=
  { memory := Memory.ofBytes [0x8C, 0x08, 0x00, 0x10] 8
    registers := ⟨fun _ => 0⟩
    program_counter := 0 }

/-- Witness for C1: a 3-cycle run aborts on the first cycle's `lw`,
surfacing the error with registers and memory untouched. -/
theorem run_aborts_on_memory_error_witness :
    CPU.run lwErrCPU 3 = ((CPU.step lwErrCPU).1, some ()) ∧
    (CPU.step lwErrCPU).1.registers = lwErrCPU.registers ∧
    (CPU.step lwErrCPU).1.memory = lwErrCPU.memory :=
  run_aborts_on_memory_error lwErrCPU lwErrCPU 3 0 0x8C080010 0x23 0 8 16 ()
    (by norm_num) rfl rfl rfl (Or.inl rfl) rfl
